import Mathlib

/-!
Verification development for the hybrid RAG engine and reasoning agent
(src/core/rag_engine.py, src/core/agents.py).

Scores are modelled as rationals, Python strings as Lean strings (with
character-list helpers mirroring Python str methods), Python dicts as
insertion-ordered association lists, and external collaborators
(embedding endpoint, ChromaDB nearest-neighbour query, the BM25 scoring
library, the cross-encoder model, the chat LLM) as oracle functions.
Fallible Python code is modelled with Except/Option.
-/

namespace Ares

/-- A Python metadata value: the values the engine actually stores are
strings (document_id, parent_id, filename, ...) and ints (chunk_index). -/
inductive MetaVal where
  | mvStr : String → MetaVal
  | mvNat : Nat → MetaVal
deriving DecidableEq, Repr

/-- Python truthiness for metadata values (empty string and 0 are falsy). -/
def MetaVal.truthy : MetaVal → Bool
  | .mvStr s => s ≠ ""
  | .mvNat n => n ≠ 0

/-- A Python dict with string keys, as an association list. -/
abbrev Metadata : Type := List (String × MetaVal)

/-- dict.get(k): first binding wins. -/
def dictGet (m : Metadata) (k : String) : Option MetaVal :=
  (m.find? (fun p => p.1 = k)).map (fun p => p.2)

/-- dict.get(k, default). -/
def dictGetD (m : Metadata) (k : String) (d : MetaVal) : MetaVal :=
  (dictGet m k).getD d

/-- {**m, k: v}: setting a key (the new binding shadows any old one). -/
def dictSet (m : Metadata) (k : String) (v : MetaVal) : Metadata :=
  (k, v) :: m.filter (fun p => p.1 ≠ k)

/-- DocumentChunk (rag_engine.py lines 16-22): id, content, optional
parent id, metadata dict and a mutable score (default 0.0). -/
structure DocumentChunk where
  id : String
  content : String
  parent_id : Option String := none
  metadata : Metadata := []
  score : ℚ := 0
deriving DecidableEq, Repr

/-- Python whitespace test for str.split() / str.strip(). -/
def isPySpace (c : Char) : Bool :=
  c = ' ' ∨ c = '\t' ∨ c = '\n' ∨ c = '\r' ∨ c = '\x0b' ∨ c = '\x0c'

/-- str.split() on a character list: split on whitespace runs,
discarding empty pieces. -/
def splitWordsAux : List Char → List Char → List (List Char)
  | [], acc => if acc = [] then [] else [acc.reverse]
  | c :: cs, acc =>
      if isPySpace c then
        if acc = [] then splitWordsAux cs []
        else acc.reverse :: splitWordsAux cs []
      else splitWordsAux cs (c :: acc)

/-- text.split() -- the whitespace-delimited words of a string. -/
def pyWords (text : String) : List (List Char) :=
  splitWordsAux text.data []

/-- " ".join(words). -/
def spaceJoin (ws : List (List Char)) : String :=
  String.mk (List.intercalate [' '] ws)

/-- A Python-level error raised by the engine code. -/
inductive PyError where
  | valueError : PyError
  | providerError : PyError
deriving DecidableEq, Repr

instance {ε α : Type} [DecidableEq ε] [DecidableEq α] :
    DecidableEq (Except ε α) := fun a b =>
  match a, b with
  | .error e1, .error e2 =>
      if h : e1 = e2 then isTrue (by rw [h])
      else isFalse (by intro hh; cases hh; exact h rfl)
  | .error e1, .ok a2 => isFalse (by intro hh; cases hh)
  | .ok a1, .error e2 => isFalse (by intro hh; cases hh)
  | .ok a1, .ok a2 =>
      if h : a1 = a2 then isTrue (by rw [h])
      else isFalse (by intro hh; cases hh; exact h rfl)

/-- The start offsets produced by range(0, n, step) for step > 0:
0, step, 2*step, ... below n. -/
def chunkStarts (n step : Nat) : List Nat :=
  (List.range ((n + step - 1) / step)).map (fun j => j * step)

/-- range(0, n, step) with Python semantics for all integer steps:
step = 0 raises ValueError, step < 0 gives the empty sequence
(start 0 < stop), step > 0 gives chunkStarts. -/
def pyRange0 (n : Nat) (step : Int) : Except PyError (List Nat) :=
  if step = 0 then .error .valueError
  else if step < 0 then .ok []
  else .ok (chunkStarts n step.toNat)

/-- The chunk built from words[i : i+chunk_size]
(rag_engine.py lines 123-140). -/
def mkChunk (chunk_size : Nat) (parent : String) (metadata : Metadata)
    (words : List (List Char)) (i : Nat) : DocumentChunk :=
  { id := parent ++ "_chunk_" ++ toString i
    content := spaceJoin ((words.drop i).take chunk_size)
    parent_id := some parent
    metadata := dictSet (dictSet metadata "chunk_index" (.mvNat i))
      "parent_id" (.mvStr parent)
    score := 0 }

/-- HybridRAGEngine._chunk_text (rag_engine.py lines 107-142): split the
text into whitespace words and emit one chunk per start offset of
range(0, len(words), chunk_size - chunk_overlap).  The subtraction is
Python int subtraction, so overlap = size raises ValueError from range()
and overlap > size silently yields no offsets at all. -/
def chunk_text (chunk_size chunk_overlap : Nat) (text : String)
    (metadata : Metadata) : Except PyError (List DocumentChunk) :=
  let words := pyWords text
  let parent : String :=
    match dictGet metadata "document_id" with
    | some (.mvStr s) => s
    | some (.mvNat n) => toString n
    | none => "unknown"
  (pyRange0 words.length ((chunk_size : Int) - (chunk_overlap : Int))).map
    (fun starts => starts.map (mkChunk chunk_size parent metadata words))

/-- One record of the ChromaDB collection: id, embedding, raw chunk text
and the chunk metadata (what collection.add stores, lines 179-185). -/
structure VectorEntry where
  id : String
  embedding : List ℚ
  document : String
  metadata : Metadata
deriving DecidableEq, Repr

/-- The mutable state of HybridRAGEngine: the chunking configuration,
the ChromaDB collection (in insertion order) and the three BM25 fields
(the BM25Okapi object is represented by the tokenized corpus it was
built from). -/
structure EngineState where
  chunk_size : Nat
  chunk_overlap : Nat
  collection : List VectorEntry
  bm25 : Option (List (List (List Char)))
  bm25_documents : List String
  bm25_id_map : List (Nat × String)
deriving DecidableEq, Repr

/-- HybridRAGEngine.__init__ (lines 34-82): stores the chunking
configuration unconditionally (no overlap/chunk_size validation exists)
and starts with an empty collection and no BM25 index. -/
def mkEngine (chunk_size chunk_overlap : Nat) : EngineState :=
  { chunk_size := chunk_size
    chunk_overlap := chunk_overlap
    collection := []
    bm25 := none
    bm25_documents := []
    bm25_id_map := [] }

/-- HybridRAGEngine._rebuild_bm25 (lines 202-223): fetch every document
of the collection; if there are none, return early LEAVING the three
BM25 fields untouched; otherwise rebuild all three from the collection. -/
def rebuild_bm25 (s : EngineState) : EngineState :=
  let docs := s.collection.map (fun e => e.document)
  if docs.isEmpty then s
  else
    { s with
      bm25 := some (docs.map (fun d => pyWords d))
      bm25_documents := docs
      bm25_id_map := (s.collection.map (fun e => e.id)).enum }

/-- Embed each chunk text in turn; the first provider failure aborts
(the exception propagates out of index_document, lines 171-177). -/
def embedAll (embed : String → Option (List ℚ)) :
    List String → Option (List (List ℚ))
  | [] => some []
  | t :: ts =>
      match embed t with
      | none => none
      | some e => (embedAll embed ts).map (fun es => e :: es)

/-- HybridRAGEngine.index_document (lines 144-200): chunk the text (the
ValueError from a zero chunk step is re-raised by the except block);
with no chunks return 0 and change nothing; otherwise embed every
chunk, append the records to the collection and, when requested,
rebuild the BM25 index. -/
def index_document (embed : String → Option (List ℚ)) (s : EngineState)
    (document_id : String) (text : String) (metadata : Metadata)
    (rebuild_flag : Bool) : Except PyError (EngineState × Nat) :=
  match chunk_text s.chunk_size s.chunk_overlap text
      (dictSet metadata "document_id" (.mvStr document_id)) with
  | .error e => .error e
  | .ok chunks =>
      if chunks.isEmpty then .ok (s, 0)
      else
        match embedAll embed (chunks.map (fun c => c.content)) with
        | none => .error .providerError
        | some embs =>
            let entries := (chunks.zip embs).map
              (fun p => VectorEntry.mk p.1.id p.2 p.1.content p.1.metadata)
            let s1 := { s with collection := s.collection ++ entries }
            .ok (if rebuild_flag then rebuild_bm25 s1 else s1, chunks.length)

/-- The where={"document_id": document_id} filter of collection.get
used by delete_document. -/
def matchesDoc (document_id : String) (e : VectorEntry) : Bool :=
  dictGet e.metadata "document_id" = some (.mvStr document_id)

/-- HybridRAGEngine.delete_document (lines 346-364): find the chunks of
the document; if none, return false unchanged; otherwise remove them
from the collection, rebuild BM25 and return true. -/
def delete_document (s : EngineState) (document_id : String) :
    EngineState × Bool :=
  let found := s.collection.filter (matchesDoc document_id)
  if found.isEmpty then (s, false)
  else
    (rebuild_bm25
      { s with collection :=
          s.collection.filter (fun e => !(matchesDoc document_id e)) },
      true)

/-- Insert x in front of the first element whose key is not larger:
an element inserted later (i.e. occurring earlier in the original
list) lands before the elements of equal key already placed. -/
def insertDesc {α : Type} (key : α → ℚ) (x : α) : List α → List α
  | [] => [x]
  | y :: ys =>
      if key y ≤ key x then x :: y :: ys else y :: insertDesc key x ys

/-- Python sorted(l, key=key, reverse=True): a stable sort putting
larger keys first.  A stable sort is determined extensionally by its
comparison, so this insertion sort computes the same list as Python's
Timsort. -/
def pySortDesc {α : Type} (key : α → ℚ) (l : List α) : List α :=
  l.foldr (insertDesc key) []

/-- A nearest-neighbour hit returned by collection.query: parallel
id/document/metadata/distance entries. -/
structure VectorHit where
  id : String
  document : String
  metadata : Metadata
  distance : ℚ
deriving DecidableEq, Repr

/-- The external collaborators of hybrid_search: the Ollama embedding
endpoint (none = request failure), the ChromaDB ANN query, the
rank_bm25 scoring function and the cross-encoder relevance model. -/
structure Oracles where
  embed : String → Option (List ℚ)
  vectorHits : List ℚ → Nat → List VectorHit
  bm25Scores : List (List (List Char)) → List (List Char) → List ℚ
  crossScore : String → String → ℚ

/-- Lines 252-262: turn the ANN hits into DocumentChunks with
similarity score 1 - distance. -/
def vectorChunksOf (hits : List VectorHit) : List DocumentChunk :=
  hits.map (fun h =>
    { id := h.id, content := h.document, metadata := h.metadata,
      score := 1 - h.distance })

/-- bm25_id_map.get(idx). -/
def dictGetNat (m : List (Nat × String)) (k : Nat) : Option String :=
  (m.find? (fun p => p.1 = k)).map (fun p => p.2)

/-- Lines 264-290: BM25 keyword search.  With no BM25 index the result
is empty; otherwise score the corpus, sort the indices by score
descending (stable), keep the first 2*top_k, and materialise each index
whose mapped chunk id is truthy and present in the collection. -/
def keywordChunks (o : Oracles) (s : EngineState) (query : String)
    (top_k : Nat) : List DocumentChunk :=
  match s.bm25 with
  | none => []
  | some corpus =>
      let scores := o.bm25Scores corpus (pyWords query)
      let top_indices :=
        (pySortDesc (fun i => scores.getD i 0)
          (List.range scores.length)).take (top_k * 2)
      top_indices.filterMap (fun idx =>
        match dictGetNat s.bm25_id_map idx with
        | none => none
        | some cid =>
            if cid = "" then none
            else
              match s.collection.filter (fun e => e.id = cid) with
              | [] => none
              | e :: _ =>
                  some { id := cid, content := e.document,
                         metadata := e.metadata,
                         score := scores.getD idx 0 })

/-- existing.score = (existing.score + chunk.score) / 2 applied to the
dict entry whose id matches (line 300). -/
def updAvg (c e : DocumentChunk) : DocumentChunk :=
  if e.id = c.id then { e with score := (e.score + c.score) / 2 } else e

/-- One step of the deduplicating dict build of lines 293-300: a new id
is appended; an id already present has its stored score averaged with
the incoming one (dict insertion order is preserved by updates). -/
def fuseInsert (acc : List DocumentChunk) (c : DocumentChunk) :
    List DocumentChunk :=
  if acc.any (fun e => e.id = c.id) then acc.map (updAvg c)
  else acc ++ [c]

/-- Lines 292-302: fold vector_chunks + keyword_chunks into the
all_chunks dict and read back its values in insertion order. -/
def fuseChunks (vector_chunks keyword_chunks : List DocumentChunk) :
    List DocumentChunk :=
  (vector_chunks ++ keyword_chunks).foldl fuseInsert []

/-- A chunk with its score replaced by the cross-encoder output for
(query, content) (the query is pre-applied). -/
def rescore (cross : String → ℚ) (c : DocumentChunk) : DocumentChunk :=
  { c with score := cross c.content }

/-- The ids whose scores hybrid_search replaces with cross-encoder
outputs: the first 2*rerank_top_k candidates in dict order, and only
when there are more than rerank_top_k candidates (lines 305-312). -/
def rescoredIds (rerank_top_k : Nat) (cands : List DocumentChunk) :
    List String :=
  if rerank_top_k < cands.length then
    ((cands.take (rerank_top_k * 2)).map (fun c => c.id))
  else []

/-- Lines 304-319: when more than rerank_top_k candidates exist,
replace the scores of the first 2*rerank_top_k candidates with
cross-encoder outputs and sort the WHOLE list by score descending;
otherwise leave the list untouched (no rescoring, no sort). -/
def rerankStage (cross : String → ℚ) (rerank_top_k : Nat)
    (cands : List DocumentChunk) : List DocumentChunk :=
  if rerank_top_k < cands.length then
    pySortDesc (fun c => c.score)
      ((cands.take (rerank_top_k * 2)).map (rescore cross) ++
        cands.drop (rerank_top_k * 2))
  else cands

/-- chunk.metadata.get("parent_id") or chunk.metadata.get("document_id",
"unknown") with Python truthiness (line 324). -/
def parentKey (c : DocumentChunk) : MetaVal :=
  match dictGet c.metadata "parent_id" with
  | some v =>
      if v.truthy then v else dictGetD c.metadata "document_id" (.mvStr "unknown")
  | none => dictGetD c.metadata "document_id" (.mvStr "unknown")

/-- max() over a nonempty list of rationals (0 for the empty list,
which never occurs on a bucket). -/
def listMaxQ : List ℚ → ℚ
  | [] => 0
  | x :: xs => xs.foldl max x

/-- max(c.score for c in bucket) (line 333). -/
def bucketMax (b : MetaVal × List DocumentChunk) : ℚ :=
  listMaxQ (b.2.map (fun c => c.score))

/-- Distinct values in first-occurrence order (the key order of a
Python dict built by repeated insertion). -/
def firstDedup {α : Type} [DecidableEq α] : List α → List α
  | [] => []
  | x :: xs => x :: (firstDedup xs).filter (fun y => decide (y ≠ x))

/-- Lines 322-327: the parent_groups dict — keys in first-occurrence
order, each bucket holding its chunks in candidate order. -/
def parentBuckets (cands : List DocumentChunk) :
    List (MetaVal × List DocumentChunk) :=
  (firstDedup (cands.map parentKey)).map
    (fun k => (k, cands.filter (fun c => decide (parentKey c = k))))

/-- Lines 331-335: the buckets sorted by maximum chunk score
descending (stable). -/
def rankedBuckets (cands : List DocumentChunk) :
    List (MetaVal × List DocumentChunk) :=
  pySortDesc bucketMax (parentBuckets cands)

/-- The top_k_parents buckets kept by lines 331-335. -/
def keptBuckets (top_k_parents : Nat) (cands : List DocumentChunk) :
    List (MetaVal × List DocumentChunk) :=
  (rankedBuckets cands).take top_k_parents

/-- Line 338: a bucket's two best chunks by score (stable sort). -/
def top2 (chs : List DocumentChunk) : List DocumentChunk :=
  (pySortDesc (fun c => c.score) chs).take 2

/-- Lines 321-340: bucket the first 2*top_k candidates by parent, keep
the top_k_parents best buckets, take each bucket's top 2 chunks in
bucket rank order, and truncate to top_k. -/
def groupSelect (top_k top_k_parents : Nat)
    (cands : List DocumentChunk) : List DocumentChunk :=
  ((keptBuckets top_k_parents (cands.take (top_k * 2))).flatMap
    (fun b => top2 b.2)).take top_k

/-- HybridRAGEngine.hybrid_search (lines 225-344).  Any exception in
the body is caught and turned into an empty result (lines 342-344); in
this model the only failing call is the embedding request. -/
def hybrid_search (o : Oracles) (s : EngineState) (query : String)
    (top_k top_k_parents rerank_top_k : Nat) : List DocumentChunk :=
  match o.embed query with
  | none => []
  | some emb =>
      groupSelect top_k top_k_parents
        (rerankStage (o.crossScore query) rerank_top_k
          (fuseChunks (vectorChunksOf (o.vectorHits emb (top_k * 2)))
            (keywordChunks o s query top_k)))

/-- The agent state fields that the AUDIT node reads and writes
(agents.py lines 14-25). -/
structure AgentState where
  query : String
  plan : Option String := none
  context : String := ""
  answer : String := ""
  confidence : ℚ := 0
  requires_search : Bool := true
  iteration : Nat := 0
  max_iterations : Nat := 5
deriving DecidableEq, Repr

/-- str.strip(): drop leading and trailing whitespace. -/
def pyStrip (cs : List Char) : List Char :=
  ((cs.dropWhile isPySpace).reverse.dropWhile isPySpace).reverse

def isDigitChar (c : Char) : Bool := decide ('0' ≤ c) && decide (c ≤ '9')

/-- First regex alternative of agents.py line 269 at the current
position: 0?\.\d+ with its one backtracking case (an optional literal
'0', a dot, then one or more greedy digits). -/
def matchAlt1 : List Char → Option (List Char)
  | '0' :: '.' :: rest =>
      let d := rest.takeWhile isDigitChar
      if d.isEmpty then none else some ('0' :: '.' :: d)
  | '.' :: rest =>
      let d := rest.takeWhile isDigitChar
      if d.isEmpty then none else some ('.' :: d)
  | _ => none

/-- Second regex alternative \d+\.\d+ at the current position: a
maximal nonempty digit run, a dot, then one or more digits (the greedy
run must reach the dot, so no further backtracking exists). -/
def matchAlt2 (s : List Char) : Option (List Char) :=
  let intRun := s.takeWhile isDigitChar
  if intRun.isEmpty then none
  else
    match s.dropWhile isDigitChar with
    | '.' :: rest =>
        let d := rest.takeWhile isDigitChar
        if d.isEmpty then none else some (intRun ++ '.' :: d)
    | _ => none

/-- re.findall(r"0?\.\d+|\d+\.\d+", s)[0]: scan left to right, trying
alternative 1 then alternative 2 at each position; none if no number
occurs anywhere. -/
def findFirstNumber : List Char → Option (List Char)
  | [] => none
  | c :: rest =>
      match matchAlt1 (c :: rest) with
      | some m => some m
      | none =>
          match matchAlt2 (c :: rest) with
          | some m => some m
          | none => findFirstNumber rest

def digitsToNat (l : List Char) : Nat :=
  l.foldl (fun a c => 10 * a + (c.toNat - 48)) 0

/-- float() on a matched decimal literal (digits, a dot, digits). -/
def parseDecimal (cs : List Char) : ℚ :=
  let ip := cs.takeWhile (fun c => decide (c ≠ '.'))
  let fp := (cs.dropWhile (fun c => decide (c ≠ '.'))).drop 1
  (digitsToNat ip : ℚ) + (digitsToNat fp : ℚ) / ((10 : ℚ) ^ fp.length)

/-- ReasoningAgent._audit_node (agents.py lines 222-283).  Without a
search or without context the confidence is fixed at 0.8.  Otherwise
the generation provider is asked for a score (none = request failure,
giving the 0.5 fallback); the first decimal number found in the
stripped response becomes the confidence verbatim — no clamping — and
0.5 is used when no number is extractable. -/
def audit_node (state : AgentState) (providerResponse : Option String) :
    AgentState :=
  if state.requires_search = false ∨ state.context = "" then
    { state with confidence := 8/10 }
  else
    match providerResponse with
    | none => { state with confidence := 1/2 }
    | some txt =>
        match findFirstNumber (pyStrip txt.data) with
        | some m => { state with confidence := parseDecimal m }
        | none => { state with confidence := 1/2 }

/-- Node-execution counts and loop variables of one ReasoningAgent.query
run (agents.py lines 318-338). -/
structure Trace where
  planCount : Nat
  searchCount : Nat
  generateCount : Nat
  auditCount : Nat
  confidence : ℚ
  iteration : Nat
deriving DecidableEq, Repr

/-- The unconditional PLAN, SEARCH, GENERATE, AUDIT pass of lines
320-330; auditScore k is the confidence the k-th audit call leaves in
the state (absorbing provider and parsing behaviour). -/
def initialCycle (auditScore : Nat → ℚ) : Trace :=
  { planCount := 1, searchCount := 1, generateCount := 1, auditCount := 1,
    confidence := auditScore 0, iteration := 0 }

/-- One pass of the re-query loop body (lines 334-338): increment
iteration, run SEARCH, GENERATE and AUDIT once more. -/
def stepCycle (auditScore : Nat → ℚ) (t : Trace) : Trace :=
  { planCount := t.planCount, searchCount := t.searchCount + 1,
    generateCount := t.generateCount + 1, auditCount := t.auditCount + 1,
    confidence := auditScore t.auditCount, iteration := t.iteration + 1 }

/-- The while loop of line 333, with explicit fuel (the loop needs at
most maxIter - iteration passes, shown below). -/
def runLoop (auditScore : Nat → ℚ) (maxIter : Nat) :
    Nat → Trace → Trace
  | 0, t => t
  | f + 1, t =>
      if t.confidence < 7/10 ∧ t.iteration < maxIter then
        runLoop auditScore maxIter f (stepCycle auditScore t)
      else t

/-- ReasoningAgent.query at node granularity (lines 318-338): the
initial PLAN/SEARCH/GENERATE/AUDIT pass followed by the bounded
re-query loop. -/
def runQuery (auditScore : Nat → ℚ) (maxIter : Nat) : Trace :=
  runLoop auditScore maxIter maxIter (initialCycle auditScore)

/-- Modelled from the spec (section 4.3 step 2 wording, for comparison
with fuseChunks): every vector chunk keeps its score unless the same
id occurs among the keyword chunks, in which case the two scores are
averaged; keyword-only chunks follow unchanged. -/
def fusedSpec (vc kc : List DocumentChunk) : List DocumentChunk :=
  vc.map (fun v =>
    match kc.find? (fun k => k.id = v.id) with
    | some k => { v with score := (v.score + k.score) / 2 }
    | none => v) ++
  kc.filter (fun k => vc.all (fun v => decide (v.id ≠ k.id)))

/-- Insertion step for the order (score descending, ties by id
ascending). -/
def insertRank (x : DocumentChunk) : List DocumentChunk → List DocumentChunk
  | [] => [x]
  | y :: ys =>
      if y.score < x.score ∨ (x.score = y.score ∧ ¬ y.id < x.id) then
        x :: y :: ys
      else y :: insertRank x ys

/-- Sort by fused score descending with ties broken by chunk id
ascending — the order the claim says the rescoring candidates are taken
in. -/
def sortByScoreDescIdAsc (l : List DocumentChunk) : List DocumentChunk :=
  l.foldr insertRank []

/-- Modelled from the spec (section 4.3 step 3 wording): the ids the
claim says are chosen for rescoring — the 2*k_rerank candidates of
highest fused score, descending, ties by id ascending. -/
def claimRescoredIds (rerank_top_k : Nat) (cands : List DocumentChunk) :
    List String :=
  ((sortByScoreDescIdAsc cands).take (rerank_top_k * 2)).map (fun c => c.id)

/-- The rerank-dominance ordering property claimed by the spec: in the
output, no chunk outside the rescored set precedes a chunk inside it. -/
def rerankDominance (rescored : List String) (out : List DocumentChunk) :
    Prop :=
  out.Pairwise (fun x y => y.id ∈ rescored → x.id ∈ rescored)

/-- The lexical index represents exactly the chunks of the vector
index: same documents in order and the id map enumerates the
collection ids. -/
def lexMatchesVector (s : EngineState) : Prop :=
  s.bm25_documents = s.collection.map (fun e => e.document) ∧
  s.bm25_id_map = (s.collection.map (fun e => e.id)).enum ∧
  s.bm25 = some ((s.collection.map (fun e => e.document)).map
    (fun d => pyWords d))

instance (s : EngineState) : Decidable (lexMatchesVector s) := by
  unfold lexMatchesVector
  infer_instance

/-! Helper lemmas about the Python-modelling primitives. -/

lemma insertDesc_perm {α : Type} (key : α → ℚ) (x : α) (l : List α) :
    (insertDesc key x l).Perm (x :: l) := by
  induction l with
  | nil => exact List.Perm.refl _
  | cons y ys ih =>
      unfold insertDesc
      by_cases h : key y ≤ key x
      · rw [if_pos h]
      · rw [if_neg h]
        exact (ih.cons y).trans (List.Perm.swap x y ys)

lemma pySortDesc_perm {α : Type} (key : α → ℚ) (l : List α) :
    (pySortDesc key l).Perm l := by
  induction l with
  | nil => exact List.Perm.refl _
  | cons a l ih =>
      exact (insertDesc_perm key a (pySortDesc key l)).trans (ih.cons a)

lemma insertDesc_pairwise {α : Type} (key : α → ℚ) (x : α) (l : List α)
    (h : l.Pairwise (fun a b => key b ≤ key a)) :
    (insertDesc key x l).Pairwise (fun a b => key b ≤ key a) := by
  induction l with
  | nil => simp [insertDesc]
  | cons y ys ih =>
      rcases List.pairwise_cons.mp h with ⟨hy, hys⟩
      unfold insertDesc
      by_cases hc : key y ≤ key x
      · rw [if_pos hc]
        refine List.Pairwise.cons ?_ h
        intro z hz
        rcases List.mem_cons.mp hz with rfl | hz2
        · exact hc
        · exact le_trans (hy z hz2) hc
      · rw [if_neg hc]
        refine List.Pairwise.cons ?_ (ih hys)
        intro z hz
        have hz3 := (insertDesc_perm key x ys).mem_iff.mp hz
        rcases List.mem_cons.mp hz3 with rfl | hz2
        · exact le_of_not_le hc
        · exact hy z hz2

lemma pySortDesc_pairwise {α : Type} (key : α → ℚ) (l : List α) :
    (pySortDesc key l).Pairwise (fun a b => key b ≤ key a) := by
  induction l with
  | nil => simp [pySortDesc]
  | cons a l ih => exact insertDesc_pairwise key a (pySortDesc key l) ih

lemma firstDedup_nodup {α : Type} [DecidableEq α] (l : List α) :
    (firstDedup l).Nodup := by
  induction l with
  | nil => simp [firstDedup]
  | cons x xs ih =>
      simp only [firstDedup, List.nodup_cons]
      constructor
      · intro hx
        have := List.of_mem_filter hx
        simp at this
      · exact ih.filter _

lemma mem_firstDedup {α : Type} [DecidableEq α] (l : List α) (a : α) :
    a ∈ firstDedup l ↔ a ∈ l := by
  induction l with
  | nil => simp [firstDedup]
  | cons x xs ih =>
      simp only [firstDedup, List.mem_cons]
      constructor
      · rintro (rfl | h)
        · exact Or.inl rfl
        · exact Or.inr (ih.mp (List.mem_of_mem_filter h))
      · rintro (rfl | h)
        · exact Or.inl rfl
        · by_cases hax : a = x
          · exact Or.inl hax
          · refine Or.inr (List.mem_filter.mpr ⟨ih.mpr h, by simp [hax]⟩)

lemma dictGet_dictSet_self (m : Metadata) (k : String) (v : MetaVal) :
    dictGet (dictSet m k v) k = some v := by
  simp [dictGet, dictSet, List.find?]

lemma dictGet_cons (p : String × MetaVal) (m : Metadata) (q : String) :
    dictGet (p :: m) q = if p.1 = q then some p.2 else dictGet m q := by
  by_cases h : p.1 = q <;> simp [dictGet, List.find?, h]

lemma dictGet_filter_ne (m : Metadata) (k q : String) (hq : q ≠ k) :
    dictGet (m.filter (fun p => p.1 ≠ k)) q = dictGet m q := by
  induction m with
  | nil => rfl
  | cons p ps ih =>
      rw [List.filter_cons]
      by_cases hp : p.1 = k
      · have h1 : (decide ¬(p.1 = k)) = false := by simp [hp]
        have h2 : ¬ (p.1 = q) := fun h => hq (h.symm.trans hp)
        rw [h1, if_neg (by simp)]
        rw [dictGet_cons, if_neg h2]
        exact ih
      · have h1 : (decide ¬(p.1 = k)) = true := by simp [hp]
        rw [h1, if_pos rfl]
        rw [dictGet_cons, dictGet_cons]
        by_cases hpq : p.1 = q
        · rw [if_pos hpq, if_pos hpq]
        · rw [if_neg hpq, if_neg hpq]
          exact ih

lemma dictGet_dictSet_ne (m : Metadata) (k q : String) (v : MetaVal)
    (hq : q ≠ k) : dictGet (dictSet m k v) q = dictGet m q := by
  unfold dictSet
  rw [dictGet_cons, if_neg (fun h => hq h.symm)]
  exact dictGet_filter_ne m k q hq

/-! Claim theorems. -/

/-- C6: for overlap < chunk_size the chunk at position p covers words
[p*(chunk_size-overlap), p*(chunk_size-overlap)+chunk_size): its
content is the space-join of that word window and its chunk_index
metadata is the start offset p*(chunk_size-overlap), so consecutive
start offsets differ by chunk_size-overlap starting from 0; in
particular a 1000-word document with chunk_size=512 and overlap=50
yields start offsets 0, 462, 924. -/
theorem C6_chunk_offsets :
    (∀ (cs co : Nat) (text : String) (m : Metadata), co < cs →
      ∃ chunks, chunk_text cs co text m = .ok chunks ∧
        chunks.length = (chunkStarts (pyWords text).length (cs - co)).length ∧
        ∀ p (hp : p < chunks.length),
          (chunks.get ⟨p, hp⟩).content =
            spaceJoin (((pyWords text).drop (p * (cs - co))).take cs) ∧
          dictGet (chunks.get ⟨p, hp⟩).metadata "chunk_index" =
            some (.mvNat (p * (cs - co)))) ∧
    chunkStarts 1000 (512 - 50) = [0, 462, 924] := by
  constructor
  · intro cs co text m hlt
    have hne : ¬ ((cs : Int) - (co : Int) = 0) := by omega
    have hneg : ¬ ((cs : Int) - (co : Int) < 0) := by omega
    have htn : ((cs : Int) - (co : Int)).toNat = cs - co := by omega
    refine ⟨(chunkStarts (pyWords text).length (cs - co)).map
      (mkChunk cs
        (match dictGet m "document_id" with
          | some (.mvStr s) => s
          | some (.mvNat n) => toString n
          | none => "unknown") m (pyWords text)), ?_, ?_, ?_⟩
    · simp only [chunk_text, pyRange0]
      rw [if_neg hne, if_neg hneg, htn]
      rfl
    · simp
    · intro p hp
      have hp1 : p < (chunkStarts (pyWords text).length (cs - co)).length := by
        simpa using hp
      have hget : ((chunkStarts (pyWords text).length (cs - co)).map
          (mkChunk cs
            (match dictGet m "document_id" with
              | some (.mvStr s) => s
              | some (.mvNat n) => toString n
              | none => "unknown") m (pyWords text))).get ⟨p, hp⟩ =
          mkChunk cs
            (match dictGet m "document_id" with
              | some (.mvStr s) => s
              | some (.mvNat n) => toString n
              | none => "unknown") m (pyWords text) (p * (cs - co)) := by
        rw [List.get_map]
        congr 1
        unfold chunkStarts
        rw [List.get_map, List.get_range]
      rw [hget]
      constructor
      · rfl
      · unfold mkChunk
        simp only
        rw [dictGet_dictSet_ne _ _ _ _ (by decide), dictGet_dictSet_self]
  · rfl

/-- C6 witness: the general statement applied to chunk_size=2,
overlap=1 and a three-word text. -/
theorem C6_chunk_offsets_witness :
    ∃ chunks, chunk_text 2 1 "a b c" [] = .ok chunks ∧
      chunks.length = (chunkStarts (pyWords "a b c").length (2 - 1)).length ∧
      ∀ p (hp : p < chunks.length),
        (chunks.get ⟨p, hp⟩).content =
          spaceJoin (((pyWords "a b c").drop (p * (2 - 1))).take 2) ∧
        dictGet (chunks.get ⟨p, hp⟩).metadata "chunk_index" =
          some (.mvNat (p * (2 - 1))) :=
  C6_chunk_offsets.1 2 1 "a b c" [] (by decide)

/-- C4 counterexample: with chunk_size=4 and overlap=5 (overlap >
chunk_size) construction succeeds and stores the invalid
configuration, and chunking/indexing raises no error at all — it
silently produces zero chunks — so no InvalidConfig/ConfigError
rejection exists, neither at construction nor at use.  (With overlap =
chunk_size a ValueError does occur, but only when chunking runs, not
at construction.) -/
theorem C4_counterexample :
    (mkEngine 4 5).chunk_size = 4 ∧ (mkEngine 4 5).chunk_overlap = 5 ∧
    chunk_text 4 5 "a b c d e f" [] = .ok [] ∧
    index_document (fun t => some []) (mkEngine 4 5) "d" "a b c d e f" []
      true = .ok (mkEngine 4 5, 0) ∧
    (mkEngine 4 4).chunk_overlap = 4 ∧
    chunk_text 4 4 "a b" [] = .error .valueError := by
  decide

/-- C4 amended: the constructor performs no overlap/chunk_size
validation (it always yields an engine holding the given values); the
failure surfaces only when chunking runs: overlap = chunk_size raises
ValueError from range() at chunking time, and overlap > chunk_size
silently produces no chunks at all. -/
theorem C4_amended (cs co : Nat) (text : String) (m : Metadata) :
    (mkEngine cs co).chunk_size = cs ∧ (mkEngine cs co).chunk_overlap = co ∧
    (co = cs → chunk_text cs co text m = .error .valueError) ∧
    (cs < co → chunk_text cs co text m = .ok []) := by
  refine ⟨rfl, rfl, ?_, ?_⟩
  · intro h
    have hz : ((cs : Int) - (co : Int) = 0) := by omega
    simp only [chunk_text, pyRange0]
    rw [if_pos hz]
    rfl
  · intro h
    have hne : ¬ ((cs : Int) - (co : Int) = 0) := by omega
    have hneg : ((cs : Int) - (co : Int) < 0) := by omega
    simp only [chunk_text, pyRange0]
    rw [if_neg hne, if_pos hneg]
    rfl

/-- C4 witness: the amended statement applied to chunk_size=4 with
overlap 4 (ValueError at chunking time) and overlap 5 (no error, no
chunks). -/
theorem C4_amended_witness :
    chunk_text 4 4 "a b" [] = .error .valueError ∧
    chunk_text 4 5 "a b" [] = .ok [] :=
  ⟨(C4_amended 4 4 "a b" []).2.2.1 rfl,
   (C4_amended 4 5 "a b" []).2.2.2 (by decide)⟩

/-- C10: indexing a text with no whitespace-delimited words returns 0
and leaves the engine state (vector collection and all three BM25
fields) untouched: no chunk is added and no rebuild runs.  The
hypothesis chunk_size ≠ chunk_overlap excludes the configuration whose
chunking raises ValueError on every input, empty included. -/
theorem C10_empty_text_noop (embed : String → Option (List ℚ))
    (s : EngineState) (document_id text : String) (m : Metadata)
    (rebuild_flag : Bool) (hcfg : s.chunk_size ≠ s.chunk_overlap)
    (htext : pyWords text = []) :
    index_document embed s document_id text m rebuild_flag = .ok (s, 0) := by
  have hchunks : chunk_text s.chunk_size s.chunk_overlap text
      (dictSet m "document_id" (.mvStr document_id)) = .ok [] := by
    have hne : ¬ ((s.chunk_size : Int) - (s.chunk_overlap : Int) = 0) := by
      omega
    simp only [chunk_text, pyRange0, htext, List.length_nil]
    rw [if_neg hne]
    by_cases hlt : ((s.chunk_size : Int) - (s.chunk_overlap : Int) < 0)
    · rw [if_pos hlt]
      rfl
    · rw [if_neg hlt]
      have hz : chunkStarts 0
          ((s.chunk_size : Int) - (s.chunk_overlap : Int)).toNat = [] := by
        unfold chunkStarts
        rw [Nat.div_eq_of_lt (by omega)]
        rfl
      rw [hz]
      rfl
  unfold index_document
  rw [hchunks]
  rfl

/-- C10 witness: a whitespace-only text on the default configuration. -/
theorem C10_empty_text_noop_witness :
    index_document (fun t => some []) (mkEngine 512 50) "doc1" "   " []
      true = .ok (mkEngine 512 50, 0) :=
  C10_empty_text_noop (fun t => some []) (mkEngine 512 50) "doc1" "   " []
    true (by decide) (by decide)

/-- An agent state that reached AUDIT with a search and a context. -/
def exAuditState : AgentState :=
  { query := "q", context := "ctx", requires_search := true }

/-- C2 counterexample: when the generation provider answers "1.5"
during AUDIT, the code stores confidence 1.5 — outside [0.0, 1.0] —
because the extracted first decimal number is used without clamping. -/
theorem C2_counterexample :
    (audit_node exAuditState (some "1.5")).confidence = 3/2 ∧
    ¬ ((audit_node exAuditState (some "1.5")).confidence ≤ 1) := by
  have h : (audit_node exAuditState (some "1.5")).confidence = 3/2 := by
    have hd : "1.5".data = ['1', '.', '5'] := rfl
    have h1 : ('1'.toNat : Nat) = 49 := rfl
    have h5 : ('5'.toNat : Nat) = 53 := rfl
    norm_num +decide [audit_node, exAuditState, pyStrip, hd, h1, h5, isPySpace,
      findFirstNumber, matchAlt1, matchAlt2, isDigitChar, parseDecimal,
      digitsToNat, List.takeWhile, List.dropWhile]
  refine ⟨h, ?_⟩
  rw [h]
  norm_num

lemma parseDecimal_nonneg (cs : List Char) : 0 ≤ parseDecimal cs := by
  unfold parseDecimal
  positivity

/-- C2 amended: after AUDIT the confidence is always nonnegative, and
it lies in [0.0, 1.0] unless the first decimal number extracted from
the provider response exceeds 1, in which case that number is stored
verbatim (no clamping); the fallbacks 0.8 and 0.5 are inside [0,1]. -/
theorem C2_amended (st : AgentState) (resp : Option String) :
    0 ≤ (audit_node st resp).confidence ∧
    ((audit_node st resp).confidence ≤ 1 ∨
      ∃ txt m, resp = some txt ∧
        findFirstNumber (pyStrip txt.data) = some m ∧
        (audit_node st resp).confidence = parseDecimal m ∧
        1 < parseDecimal m) := by
  unfold audit_node
  by_cases h : st.requires_search = false ∨ st.context = ""
  · rw [if_pos h]
    exact ⟨by norm_num, Or.inl (by norm_num)⟩
  · rw [if_neg h]
    cases resp with
    | none => exact ⟨by norm_num, Or.inl (by norm_num)⟩
    | some txt =>
        cases hf : findFirstNumber (pyStrip txt.data) with
        | none =>
            simp only [hf]
            exact ⟨by norm_num, Or.inl (by norm_num)⟩
        | some m =>
            simp only [hf]
            refine ⟨parseDecimal_nonneg m, ?_⟩
            rcases le_or_lt (parseDecimal m) 1 with hle | hgt
            · exact Or.inl hle
            · exact Or.inr ⟨txt, m, rfl, hf, rfl, hgt⟩

/-- Metadata carrying only a parent id, as the indexed chunks do. -/
def exMeta (p : String) : Metadata := [("parent_id", .mvStr p)]

/-- Four ANN hits in distance-ascending order with parents p1..p4:
fused scores will be 0.9, 0.8, 0.4, 0.3. -/
def exHits : List VectorHit :=
  [⟨"v1", "cv1", exMeta "p1", 1/10⟩,
   ⟨"v2", "cv2", exMeta "p2", 2/10⟩,
   ⟨"v3", "cv3", exMeta "p3", 6/10⟩,
   ⟨"v4", "cv4", exMeta "p4", 7/10⟩]

/-- Concrete collaborators: a working embedder, the four hits above, a
BM25 scorer giving its single corpus document the score 10, and a
cross-encoder emitting the (perfectly plausible) negative logits
-1..-4 for the four vector chunks. -/
def exOracle : Oracles :=
  { embed := fun q => some [1]
    vectorHits := fun e n => exHits
    bm25Scores := fun c q => [10]
    crossScore := fun q content =>
      if content = "cv1" then -1 else if content = "cv2" then -2
      else if content = "cv3" then -3 else if content = "cv4" then -4
      else 0 }

/-- The same collaborators with a failing embedding endpoint. -/
def exOracleNoEmbed : Oracles := { exOracle with embed := fun q => none }

/-- The one indexed chunk behind the BM25 corpus (parent p5). -/
def exEntry : VectorEntry :=
  ⟨"k5", [1], "ck5",
    [("parent_id", .mvStr "p5"), ("document_id", .mvStr "d5")]⟩

/-- An engine state whose BM25 index holds that one chunk. -/
def exState : EngineState :=
  { chunk_size := 512, chunk_overlap := 50
    collection := [exEntry]
    bm25 := some [pyWords "ck5"]
    bm25_documents := ["ck5"]
    bm25_id_map := [(0, "k5")] }

/-- C3 counterexample: with the embedding provider failing, the query
has nonempty lexical-only (BM25) results, yet hybrid_search returns
the empty list — the blanket except block swallows the error instead
of degrading to the lexical results. -/
theorem C3_counterexample :
    hybrid_search exOracleNoEmbed exState "q" 5 3 3 = [] ∧
    keywordChunks exOracleNoEmbed exState "q" 5 ≠ [] := by
  refine ⟨rfl, ?_⟩
  have h : keywordChunks exOracleNoEmbed exState "q" 5 =
      [{ id := "k5", content := "ck5", metadata := exEntry.metadata,
         score := 10 }] := by
    norm_num +decide [keywordChunks, exOracleNoEmbed, exOracle, exState,
      exEntry, pySortDesc, insertDesc, dictGetNat, List.find?,
      List.filterMap, List.filter, List.range, List.range.loop]
  rw [h]
  simp

/-- C3 amended: when the embedding call fails, hybrid_search does not
raise, but it returns the empty list, not the lexical-only results. -/
theorem C3_amended (o : Oracles) (s : EngineState) (query : String)
    (top_k top_k_parents rerank_top_k : Nat)
    (h : o.embed query = none) :
    hybrid_search o s query top_k top_k_parents rerank_top_k = [] := by
  unfold hybrid_search
  rw [h]

/-- C3 witness: the amended statement at the concrete failing oracle. -/
theorem C3_amended_witness :
    hybrid_search exOracleNoEmbed exState "q" 5 3 3 = [] :=
  C3_amended exOracleNoEmbed exState "q" 5 3 3 rfl

/-- A rebuild never touches the vector collection. -/
lemma rebuild_bm25_collection (s : EngineState) :
    (rebuild_bm25 s).collection = s.collection := by
  unfold rebuild_bm25
  by_cases h : (s.collection.map (fun e => e.document)).isEmpty = true
  · rw [if_pos h]
  · rw [if_neg h]

/-- A rebuild that sees at least one chunk leaves the lexical index
exactly matching the vector collection. -/
lemma rebuild_nonempty_lex (s : EngineState) (h : s.collection ≠ []) :
    lexMatchesVector (rebuild_bm25 s) := by
  have hm : ¬ ((s.collection.map (fun e => e.document)).isEmpty = true) := by
    cases hc : s.collection with
    | nil => exact absurd hc h
    | cons a l => simp [hc]
  unfold rebuild_bm25
  rw [if_neg hm]
  exact ⟨rfl, rfl, rfl⟩

/-- A rebuild over an empty collection is a no-op: the stale BM25
fields survive. -/
lemma rebuild_empty_eq (s : EngineState) (h : s.collection = []) :
    rebuild_bm25 s = s := by
  unfold rebuild_bm25
  rw [if_pos (by simp [h])]

/-- A single-document engine state with a consistent BM25 index. -/
def exStateD : EngineState :=
  { chunk_size := 512, chunk_overlap := 50
    collection := [⟨"d1_chunk_0", [1], "hello world",
      [("document_id", .mvStr "d1"), ("parent_id", .mvStr "d1")]⟩]
    bm25 := some [pyWords "hello world"]
    bm25_documents := ["hello world"]
    bm25_id_map := [(0, "d1_chunk_0")] }

/-- C5 counterexample: deleting the last remaining document succeeds
and triggers a rebuild, after which the vector index is empty but the
lexical index still holds the deleted chunk — the rebuild's early
return on an empty collection leaves the two diverged. -/
theorem C5_counterexample :
    (delete_document exStateD "d1").2 = true ∧
    (delete_document exStateD "d1").1.collection = [] ∧
    (delete_document exStateD "d1").1.bm25_documents = ["hello world"] ∧
    ¬ lexMatchesVector (delete_document exStateD "d1").1 := by
  decide

/-- C5 amended: after a rebuild that observes a nonempty chunk set the
lexical index represents exactly the vector collection; but a rebuild
over an emptied collection returns early and keeps the stale lexical
index, so a deletion that removes the last chunks leaves deleted
chunks in the lexical index.  A successful deletion that leaves
chunks behind does restore the invariant. -/
theorem C5_amended :
    (∀ s : EngineState, s.collection ≠ [] →
      lexMatchesVector (rebuild_bm25 s)) ∧
    (∀ s : EngineState, s.collection = [] → rebuild_bm25 s = s) ∧
    (∀ (s : EngineState) (did : String),
      (delete_document s did).2 = true →
      (delete_document s did).1.collection ≠ [] →
      lexMatchesVector (delete_document s did).1) := by
  refine ⟨rebuild_nonempty_lex, rebuild_empty_eq, ?_⟩
  intro s did h2 hne
  unfold delete_document at h2 hne ⊢
  by_cases hf : ((s.collection.filter (matchesDoc did)).isEmpty = true)
  · rw [if_pos hf] at h2
    cases h2
  · rw [if_neg hf] at hne ⊢
    rw [rebuild_bm25_collection] at hne
    exact rebuild_nonempty_lex _ hne

/-- C5 amended witness: a two-document state where deleting one
document keeps the other, restoring the lexical/vector match. -/
theorem C5_amended_witness :
    lexMatchesVector (rebuild_bm25 exStateD) ∧
    rebuild_bm25 (mkEngine 512 50) = mkEngine 512 50 ∧
    lexMatchesVector (delete_document
      { exStateD with collection := exStateD.collection ++ [exEntry] }
      "d1").1 :=
  ⟨C5_amended.1 exStateD (by decide),
   C5_amended.2.1 (mkEngine 512 50) rfl,
   C5_amended.2.2
     { exStateD with collection := exStateD.collection ++ [exEntry] }
     "d1" (by decide) (by decide)⟩

lemma runLoop_invariant (a : Nat → ℚ) (m : Nat) :
    ∀ (f : Nat) (t : Trace), t.planCount = 1 →
      t.searchCount = t.iteration + 1 →
      t.generateCount = t.iteration + 1 →
      t.auditCount = t.iteration + 1 →
      t.iteration ≤ m →
      (runLoop a m f t).planCount = 1 ∧
      (runLoop a m f t).searchCount = (runLoop a m f t).iteration + 1 ∧
      (runLoop a m f t).generateCount = (runLoop a m f t).iteration + 1 ∧
      (runLoop a m f t).auditCount = (runLoop a m f t).iteration + 1 ∧
      (runLoop a m f t).iteration ≤ m := by
  intro f
  induction f with
  | zero =>
      intro t h1 h2 h3 h4 h5
      exact ⟨h1, h2, h3, h4, h5⟩
  | succ f ih =>
      intro t h1 h2 h3 h4 h5
      show (runLoop a m (f + 1) t).planCount = 1 ∧ _
      rw [runLoop]
      by_cases hc : t.confidence < 7/10 ∧ t.iteration < m
      · rw [if_pos hc]
        refine ih (stepCycle a t) h1 ?_ ?_ ?_ ?_
        · simp [stepCycle, h2]
        · simp [stepCycle, h3]
        · simp [stepCycle, h4]
        · simp only [stepCycle]
          omega
      · rw [if_neg hc]
        exact ⟨h1, h2, h3, h4, h5⟩

lemma runLoop_fuel_succ (a : Nat → ℚ) (m : Nat) :
    ∀ (f : Nat) (t : Trace), m ≤ t.iteration + f →
      runLoop a m (f + 1) t = runLoop a m f t := by
  intro f
  induction f with
  | zero =>
      intro t h
      show runLoop a m (0 + 1) t = t
      rw [runLoop]
      rw [if_neg]
      intro hc
      omega
  | succ f ih =>
      intro t h
      by_cases hc : t.confidence < 7/10 ∧ t.iteration < m
      · have l1 : runLoop a m (f + 1 + 1) t =
            runLoop a m (f + 1) (stepCycle a t) := by
          rw [runLoop, if_pos hc]
        have l2 : runLoop a m (f + 1) t =
            runLoop a m f (stepCycle a t) := by
          rw [runLoop, if_pos hc]
        rw [l1, l2]
        refine ih (stepCycle a t) ?_
        simp only [stepCycle]
        omega
      · have l1 : runLoop a m (f + 1 + 1) t = t := by
          rw [runLoop, if_neg hc]
        have l2 : runLoop a m (f + 1) t = t := by
          rw [runLoop, if_neg hc]
        rw [l1, l2]

/-- C9: (i) with max_iterations = 0 the controller runs PLAN, SEARCH,
GENERATE and AUDIT exactly once each and performs no loop iteration,
whatever confidences the audits produce; (ii) in general PLAN runs
exactly once, the loop adds at most max_iterations extra
SEARCH/GENERATE/AUDIT cycles (one per iteration), and the iteration
counter never exceeds max_iterations; (iii) the loop terminates: any
fuel beyond max_iterations leaves the result unchanged, so the while
loop needs only max_iterations passes. -/
theorem C9_loop_termination :
    (∀ a : Nat → ℚ, (runQuery a 0).planCount = 1 ∧
      (runQuery a 0).searchCount = 1 ∧ (runQuery a 0).generateCount = 1 ∧
      (runQuery a 0).auditCount = 1 ∧ (runQuery a 0).iteration = 0) ∧
    (∀ (a : Nat → ℚ) (m : Nat),
      (runQuery a m).planCount = 1 ∧
      (runQuery a m).searchCount ≤ 1 + m ∧
      (runQuery a m).generateCount ≤ 1 + m ∧
      (runQuery a m).auditCount ≤ 1 + m ∧
      (runQuery a m).searchCount = (runQuery a m).iteration + 1 ∧
      (runQuery a m).iteration ≤ m) ∧
    (∀ (a : Nat → ℚ) (m extra : Nat),
      runLoop a m (m + extra) (initialCycle a) = runQuery a m) := by
  refine ⟨fun a => ⟨rfl, rfl, rfl, rfl, rfl⟩, ?_, ?_⟩
  · intro a m
    have h := runLoop_invariant a m m (initialCycle a) rfl rfl rfl rfl
      (Nat.zero_le m)
    unfold runQuery
    exact ⟨h.1, by omega, by omega, by omega, h.2.1, h.2.2.2.2⟩
  · intro a m extra
    induction extra with
    | zero => rfl
    | succ extra ih =>
        have hstep : runLoop a m (m + extra + 1) (initialCycle a) =
            runLoop a m (m + extra) (initialCycle a) :=
          runLoop_fuel_succ a m (m + extra) (initialCycle a) (by
            show m ≤ (initialCycle a).iteration + (m + extra)
            simp [initialCycle])
        rw [show m + (extra + 1) = m + extra + 1 by omega, hstep, ih]

lemma updAvg_id (c e : DocumentChunk) : (updAvg c e).id = e.id := by
  unfold updAvg
  by_cases h : e.id = c.id <;> simp [h]

lemma fuseInsert_mem (acc : List DocumentChunk) (c : DocumentChunk)
    (h : c.id ∈ acc.map (fun e => e.id)) :
    fuseInsert acc c = acc.map (updAvg c) := by
  unfold fuseInsert
  rw [if_pos]
  rw [List.any_eq_true]
  obtain ⟨e, he, heq⟩ := List.mem_map.mp h
  exact ⟨e, he, by simp [heq]⟩

lemma fuseInsert_notmem (acc : List DocumentChunk) (c : DocumentChunk)
    (h : ¬ c.id ∈ acc.map (fun e => e.id)) :
    fuseInsert acc c = acc ++ [c] := by
  unfold fuseInsert
  rw [if_neg]
  rw [List.any_eq_true]
  rintro ⟨e, he, heq⟩
  exact h (List.mem_map.mpr ⟨e, he, of_decide_eq_true heq⟩)

lemma foldl_fuseInsert (ks : List DocumentChunk) :
    ∀ acc : List DocumentChunk, (acc.map (fun c => c.id)).Nodup →
      (ks.map (fun c => c.id)).Nodup →
      ks.foldl fuseInsert acc =
        acc.map (fun v =>
          match ks.find? (fun k => k.id = v.id) with
          | some k => { v with score := (v.score + k.score) / 2 }
          | none => v) ++
        ks.filter (fun k => acc.all (fun v => decide (v.id ≠ k.id))) := by
  induction ks with
  | nil =>
      intro acc hacc hks
      simp [List.find?]
  | cons k ks ih =>
      intro acc hacc hks
      have hks2 : (ks.map (fun c => c.id)).Nodup :=
        (List.nodup_cons.mp hks).2
      have hknotks : ¬ k.id ∈ ks.map (fun c => c.id) :=
        (List.nodup_cons.mp hks).1
      rw [List.foldl_cons]
      by_cases hmem : k.id ∈ acc.map (fun e => e.id)
      · rw [fuseInsert_mem acc k hmem]
        have hacc2 : ((acc.map (updAvg k)).map (fun c => c.id)).Nodup := by
          rw [List.map_map]
          have : ((fun c => c.id) ∘ updAvg k) = (fun c => c.id) := by
            funext e
            exact updAvg_id k e
          rw [this]
          exact hacc
        rw [ih (acc.map (updAvg k)) hacc2 hks2]
        have hmap : (acc.map (updAvg k)).map (fun v =>
            match ks.find? (fun k2 => k2.id = v.id) with
            | some k2 => { v with score := (v.score + k2.score) / 2 }
            | none => v) =
            acc.map (fun v =>
              match (k :: ks).find? (fun k2 => k2.id = v.id) with
              | some k2 => { v with score := (v.score + k2.score) / 2 }
              | none => v) := by
          rw [List.map_map]
          refine List.map_congr_left ?_
          intro v hv
          simp only [Function.comp]
          by_cases hvk : v.id = k.id
          · have hupd : updAvg k v =
                { v with score := (v.score + k.score) / 2 } := by
              unfold updAvg
              rw [if_pos hvk]
            rw [hupd]
            have hfind1 : ks.find? (fun k2 =>
                k2.id = ({ v with score := (v.score + k.score) / 2 } :
                  DocumentChunk).id) = none := by
              rw [List.find?_eq_none]
              intro x hx
              simp only [decide_eq_true_eq]
              intro hxid
              exact hknotks (List.mem_map.mpr ⟨x, hx, by
                rw [hxid]; exact hvk⟩)
            rw [hfind1]
            have hfind2 : (k :: ks).find? (fun k2 => k2.id = v.id) =
                some k := by
              rw [List.find?_cons]
              have : (decide (k.id = v.id)) = true := by
                simp [hvk.symm]
              rw [this]
            rw [hfind2]
          · have hupd : updAvg k v = v := by
              unfold updAvg
              rw [if_neg hvk]
            rw [hupd]
            have hfind2 : (k :: ks).find? (fun k2 => k2.id = v.id) =
                ks.find? (fun k2 => k2.id = v.id) := by
              rw [List.find?_cons]
              have : (decide (k.id = v.id)) = false := by
                simp only [decide_eq_false_iff_not]
                intro h
                exact hvk h.symm
              rw [this]
            rw [hfind2]
        have hfilt : ks.filter (fun k2 =>
            (acc.map (updAvg k)).all (fun v => decide (v.id ≠ k2.id))) =
            ks.filter (fun k2 => acc.all (fun v => decide (v.id ≠ k2.id))) := by
          refine List.filter_congr ?_
          intro x hx
          rw [List.all_map]
          refine congrArg acc.all ?_
          funext v
          simp only [Function.comp]
          rw [updAvg_id]
        have hhead : (k :: ks).filter (fun k2 =>
            acc.all (fun v => decide (v.id ≠ k2.id))) =
            ks.filter (fun k2 => acc.all (fun v => decide (v.id ≠ k2.id))) := by
          rw [List.filter_cons]
          have : (acc.all (fun v => decide (v.id ≠ k.id))) = false := by
            obtain ⟨e, he, heq⟩ := List.mem_map.mp hmem
            rw [Bool.eq_false_iff]
            intro hall
            rw [List.all_eq_true] at hall
            have := hall e he
            simp only [decide_eq_true_eq] at this
            exact this heq
          rw [this]
          simp
        rw [hmap, hfilt, hhead]
      · rw [fuseInsert_notmem acc k hmem]
        have hacc2 : ((acc ++ [k]).map (fun c => c.id)).Nodup := by
          rw [List.map_append]
          rw [List.nodup_append]
          refine ⟨hacc, List.nodup_singleton _, ?_⟩
          intro x hx
          simp only [List.map_cons, List.map_nil, List.mem_singleton]
          intro hxk
          exact hmem (hxk ▸ hx)
        rw [ih (acc ++ [k]) hacc2 hks2]
        have hvne : ∀ v ∈ acc, v.id ≠ k.id := by
          intro v hv hvk
          exact hmem (List.mem_map.mpr ⟨v, hv, hvk⟩)
        have hmap : (acc ++ [k]).map (fun v =>
            match ks.find? (fun k2 => k2.id = v.id) with
            | some k2 => { v with score := (v.score + k2.score) / 2 }
            | none => v) =
            acc.map (fun v =>
              match (k :: ks).find? (fun k2 => k2.id = v.id) with
              | some k2 => { v with score := (v.score + k2.score) / 2 }
              | none => v) ++ [k] := by
          rw [List.map_append]
          refine congrArg₂ (· ++ ·) ?_ ?_
          · refine List.map_congr_left ?_
            intro v hv
            have hfind2 : (k :: ks).find? (fun k2 => k2.id = v.id) =
                ks.find? (fun k2 => k2.id = v.id) := by
              rw [List.find?_cons]
              have : (decide (k.id = v.id)) = false := by
                simp only [decide_eq_false_iff_not]
                intro h
                exact hvne v hv h.symm
              rw [this]
            rw [hfind2]
          · have hfind1 : ks.find? (fun k2 => k2.id = k.id) = none := by
              rw [List.find?_eq_none]
              intro x hx
              simp only [decide_eq_true_eq]
              intro hxid
              exact hknotks (List.mem_map.mpr ⟨x, hx, hxid⟩)
            simp [hfind1]
        have hfilt : ks.filter (fun k2 =>
            (acc ++ [k]).all (fun v => decide (v.id ≠ k2.id))) =
            ks.filter (fun k2 => acc.all (fun v => decide (v.id ≠ k2.id))) := by
          refine List.filter_congr ?_
          intro x hx
          rw [List.all_append]
          have : ([k].all (fun v => decide (v.id ≠ x.id))) = true := by
            simp only [List.all_cons, List.all_nil, Bool.and_true,
              decide_eq_true_eq]
            intro h
            exact hknotks (List.mem_map.mpr ⟨x, hx, h.symm⟩)
          rw [this]
          simp
        have hhead : (k :: ks).filter (fun k2 =>
            acc.all (fun v => decide (v.id ≠ k2.id))) =
            k :: ks.filter (fun k2 => acc.all (fun v => decide (v.id ≠ k2.id))) := by
          rw [List.filter_cons]
          have : (acc.all (fun v => decide (v.id ≠ k.id))) = true := by
            rw [List.all_eq_true]
            intro v hv
            simp only [decide_eq_true_eq]
            exact hvne v hv
          rw [this]
          simp
        rw [hmap, hfilt, hhead]
        rw [List.append_assoc]
        rfl

/-- kc.find? by id returns exactly the member with that id when the ids
are duplicate-free. -/
lemma find?_id_eq (kc : List DocumentChunk)
    (hnd : (kc.map (fun c => c.id)).Nodup) (k : DocumentChunk)
    (hk : k ∈ kc) (i : String) (hi : k.id = i) :
    kc.find? (fun x => x.id = i) = some k := by
  induction kc with
  | nil => cases hk
  | cons a l ih =>
      rw [List.find?_cons]
      by_cases ha : a.id = i
      · have hak : a = k :=
          List.inj_on_of_nodup_map hnd (List.mem_cons_self a l) hk
            (ha.trans hi.symm)
        have : (decide (a.id = i)) = true := by simp [ha]
        rw [this, hak]
      · have : (decide (a.id = i)) = false := by simp [ha]
        rw [this]
        have hkl : k ∈ l := by
          rcases List.mem_cons.mp hk with rfl | h
          · exact absurd hi ha
          · exact h
        have hnd2 : (l.map (fun c => c.id)).Nodup := by
          rw [List.map_cons] at hnd
          exact (List.nodup_cons.mp hnd).2
        exact ih hnd2 hkl

/-- C8: with duplicate-free ids inside each of the two result lists
(as ChromaDB and the BM25 index map produce), fusion equals the
spec-side description: a chunk in both lists gets the average of its
two scores, a chunk in exactly one list passes through with its score
unchanged. -/
theorem C8_fusion (vc kc : List DocumentChunk)
    (hvc : (vc.map (fun c => c.id)).Nodup)
    (hkc : (kc.map (fun c => c.id)).Nodup) :
    fuseChunks vc kc = fusedSpec vc kc ∧
    (∀ v ∈ vc, ∀ k ∈ kc, v.id = k.id →
      { v with score := (v.score + k.score) / 2 } ∈ fuseChunks vc kc) ∧
    (∀ v ∈ vc, (∀ k ∈ kc, v.id ≠ k.id) → v ∈ fuseChunks vc kc) ∧
    (∀ k ∈ kc, (∀ v ∈ vc, v.id ≠ k.id) → k ∈ fuseChunks vc kc) := by
  have hbase : vc.foldl fuseInsert [] = vc := by
    rw [foldl_fuseInsert vc [] (by simp) hvc]
    simp
  have hmain : fuseChunks vc kc = fusedSpec vc kc := by
    unfold fuseChunks fusedSpec
    rw [List.foldl_append, hbase]
    exact foldl_fuseInsert kc vc hvc hkc
  refine ⟨hmain, ?_, ?_, ?_⟩
  · intro v hv k hk hid
    rw [hmain]
    unfold fusedSpec
    refine List.mem_append.mpr (Or.inl ?_)
    refine List.mem_map.mpr ⟨v, hv, ?_⟩
    rw [find?_id_eq kc hkc k hk v.id hid.symm]
  · intro v hv hnone
    rw [hmain]
    unfold fusedSpec
    refine List.mem_append.mpr (Or.inl ?_)
    refine List.mem_map.mpr ⟨v, hv, ?_⟩
    have : kc.find? (fun x => x.id = v.id) = none := by
      rw [List.find?_eq_none]
      intro x hx
      simp only [decide_eq_true_eq]
      intro hxid
      exact hnone x hx hxid.symm
    rw [this]
  · intro k hk hnone
    rw [hmain]
    unfold fusedSpec
    refine List.mem_append.mpr (Or.inr ?_)
    refine List.mem_filter.mpr ⟨hk, ?_⟩
    rw [List.all_eq_true]
    intro v hv
    simp only [decide_eq_true_eq]
    exact hnone v hv

/-- Vector-side chunks a, b and keyword-side chunks b, c for the C8
witness (id b occurs on both sides). -/
def exVC : List DocumentChunk :=
  [{ id := "a", content := "ca", score := 1 },
   { id := "b", content := "cb", score := 3 }]

def exKC : List DocumentChunk :=
  [{ id := "b", content := "cb", score := 2 },
   { id := "c", content := "cc", score := 7 }]

/-- C8 witness: the fusion characterization applied to concrete vector
and keyword results with one shared id. -/
theorem C8_fusion_witness :
    fuseChunks exVC exKC = fusedSpec exVC exKC ∧
    (∀ v ∈ exVC, ∀ k ∈ exKC, v.id = k.id →
      { v with score := (v.score + k.score) / 2 } ∈ fuseChunks exVC exKC) ∧
    (∀ v ∈ exVC, (∀ k ∈ exKC, v.id ≠ k.id) → v ∈ fuseChunks exVC exKC) ∧
    (∀ k ∈ exKC, (∀ v ∈ exVC, v.id ≠ k.id) → k ∈ fuseChunks exVC exKC) :=
  C8_fusion exVC exKC (by decide) (by decide)

lemma top2_subset (chs : List DocumentChunk) : ∀ x ∈ top2 chs, x ∈ chs := by
  intro x hx
  have hx2 : x ∈ pySortDesc (fun c => c.score) chs :=
    (List.take_sublist 2 _).subset hx
  exact (pySortDesc_perm (fun c => c.score) chs).mem_iff.mp hx2

lemma parentBuckets_key (cs : List DocumentChunk) :
    ∀ b ∈ parentBuckets cs, ∀ c ∈ b.2, parentKey c = b.1 := by
  intro b hb c hc
  obtain ⟨key, hkey, hbeq⟩ := List.mem_map.mp hb
  rw [← hbeq] at hc ⊢
  simp only at hc ⊢
  exact of_decide_eq_true (List.mem_filter.mp hc).2

lemma parentBuckets_keys_nodup (cs : List DocumentChunk) :
    ((parentBuckets cs).map Prod.fst).Nodup := by
  unfold parentBuckets
  rw [List.map_map]
  have h : (Prod.fst ∘ fun k =>
      (k, cs.filter (fun c => decide (parentKey c = k)))) = id := rfl
  rw [h, List.map_id]
  exact firstDedup_nodup _

lemma mem_keptBuckets (cs : List DocumentChunk) (P : Nat) :
    ∀ b ∈ keptBuckets P cs, b ∈ parentBuckets cs := by
  intro b hb
  have h1 : b ∈ rankedBuckets cs := (List.take_sublist P _).subset hb
  exact (pySortDesc_perm bucketMax (parentBuckets cs)).mem_iff.mp h1

lemma keptBuckets_key (cs : List DocumentChunk) (P : Nat) :
    ∀ b ∈ keptBuckets P cs, ∀ c ∈ b.2, parentKey c = b.1 :=
  fun b hb => parentBuckets_key cs b (mem_keptBuckets cs P b hb)

lemma keptBuckets_keys_nodup (cs : List DocumentChunk) (P : Nat) :
    ((keptBuckets P cs).map Prod.fst).Nodup := by
  have hperm : ((rankedBuckets cs).map Prod.fst).Nodup := by
    have hp := (pySortDesc_perm bucketMax (parentBuckets cs)).map Prod.fst
    exact hp.nodup_iff.mpr (parentBuckets_keys_nodup cs)
  unfold keptBuckets
  rw [List.map_take]
  exact List.Nodup.sublist (List.take_sublist P _) hperm

lemma flatMap_top2_filter_le (l : List (MetaVal × List DocumentChunk))
    (key : MetaVal) (hkeys : (l.map Prod.fst).Nodup)
    (hk : ∀ b ∈ l, ∀ c ∈ b.2, parentKey c = b.1) :
    ((l.flatMap (fun b => top2 b.2)).filter
      (fun c => decide (parentKey c = key))).length ≤ 2 := by
  induction l with
  | nil => simp
  | cons b l ih =>
      rw [List.flatMap_cons, List.filter_append, List.length_append]
      have hkeys2 : (l.map Prod.fst).Nodup :=
        (List.nodup_cons.mp (by simpa using hkeys)).2
      have hbnot : b.1 ∉ l.map Prod.fst :=
        (List.nodup_cons.mp (by simpa using hkeys)).1
      by_cases hb : b.1 = key
      · have h2 : (l.flatMap (fun b => top2 b.2)).filter
            (fun c => decide (parentKey c = key)) = [] := by
          rw [List.filter_eq_nil_iff]
          intro c hc
          obtain ⟨b2, hb2, hcb2⟩ := List.mem_flatMap.mp hc
          have hc2 : c ∈ b2.2 := top2_subset b2.2 c hcb2
          have hpk := hk b2 (List.mem_cons_of_mem b hb2) c hc2
          simp only [decide_eq_true_eq]
          rw [hpk]
          intro hbk
          apply hbnot
          have hmem : b2.1 ∈ l.map Prod.fst :=
            List.mem_map.mpr ⟨b2, hb2, rfl⟩
          rw [hbk, ← hb] at hmem
          exact hmem
        rw [h2]
        simp only [List.length_nil, Nat.add_zero]
        calc ((top2 b.2).filter (fun c => decide (parentKey c = key))).length
            ≤ (top2 b.2).length := List.length_filter_le _ _
          _ ≤ 2 := List.length_take_le 2 _
      · have h1 : (top2 b.2).filter
            (fun c => decide (parentKey c = key)) = [] := by
          rw [List.filter_eq_nil_iff]
          intro c hc
          have hc2 : c ∈ b.2 := top2_subset b.2 c hc
          have hpk := hk b (List.mem_cons_self b l) c hc2
          simp only [decide_eq_true_eq]
          rw [hpk]
          exact hb
        rw [h1]
        simp only [List.length_nil, Nat.zero_add]
        exact ih hkeys2 (fun b2 hb2 => hk b2 (List.mem_cons_of_mem b hb2))

lemma groupSelect_props (k P : Nat) (cands : List DocumentChunk) :
    ((groupSelect k P cands).map parentKey).dedup.length ≤ P ∧
    (groupSelect k P cands).length ≤ k ∧
    ∀ key, ((groupSelect k P cands).filter
      (fun c => decide (parentKey c = key))).length ≤ 2 := by
  have hgs : groupSelect k P cands =
      ((keptBuckets P (cands.take (k * 2))).flatMap
        (fun b => top2 b.2)).take k := rfl
  refine ⟨?_, ?_, ?_⟩
  · have hsub : ∀ x ∈ (groupSelect k P cands).map parentKey,
        x ∈ (keptBuckets P (cands.take (k * 2))).map Prod.fst := by
      intro x hx
      obtain ⟨c, hc, hxc⟩ := List.mem_map.mp hx
      rw [hgs] at hc
      have hc2 : c ∈ (keptBuckets P (cands.take (k * 2))).flatMap
          (fun b => top2 b.2) := (List.take_sublist k _).subset hc
      obtain ⟨b, hb, hcb⟩ := List.mem_flatMap.mp hc2
      have hpk := keptBuckets_key (cands.take (k * 2)) P b hb c
        (top2_subset b.2 c hcb)
      exact List.mem_map.mpr ⟨b, hb, by rw [← hxc, hpk]⟩
    have h1 : ((groupSelect k P cands).map parentKey).dedup.length =
        ((groupSelect k P cands).map parentKey).toFinset.card :=
      (List.card_toFinset _).symm
    rw [h1]
    have h2 : ((groupSelect k P cands).map parentKey).toFinset ⊆
        ((keptBuckets P (cands.take (k * 2))).map Prod.fst).toFinset := by
      intro x hx
      exact List.mem_toFinset.mpr (hsub x (List.mem_toFinset.mp hx))
    calc ((groupSelect k P cands).map parentKey).toFinset.card
        ≤ ((keptBuckets P (cands.take (k * 2))).map
            Prod.fst).toFinset.card := Finset.card_le_card h2
      _ ≤ ((keptBuckets P (cands.take (k * 2))).map Prod.fst).length :=
          List.toFinset_card_le _
      _ = (keptBuckets P (cands.take (k * 2))).length :=
          List.length_map _ _
      _ ≤ P := List.length_take_le P _
  · rw [hgs]
    exact List.length_take_le k _
  · intro key
    have hsubl : ((groupSelect k P cands).filter
        (fun c => decide (parentKey c = key))).Sublist
        (((keptBuckets P (cands.take (k * 2))).flatMap
          (fun b => top2 b.2)).filter
          (fun c => decide (parentKey c = key))) := by
      rw [hgs]
      exact List.Sublist.filter _ (List.take_sublist k _)
    calc ((groupSelect k P cands).filter
          (fun c => decide (parentKey c = key))).length
        ≤ _ := hsubl.length_le
      _ ≤ 2 := flatMap_top2_filter_le _ key
          (keptBuckets_keys_nodup (cands.take (k * 2)) P)
          (keptBuckets_key (cands.take (k * 2)) P)

/-- C7: (i) the search result draws chunks from at most top_k_parents
distinct parent keys, has length at most top_k, and contains at most 2
chunks per parent key; (ii) the kept buckets are those with the
largest maximum chunk score (every kept bucket's maximum is at least
every dropped bucket's maximum), and a bucket's contributed chunks
(its top 2 by score) have scores at least those of all its other
chunks; the output concatenates the kept buckets in rank order before
the final truncation, by definition of groupSelect. -/
theorem C7_parent_cap :
    (∀ (o : Oracles) (s : EngineState) (q : String) (k P r : Nat),
      ((hybrid_search o s q k P r).map parentKey).dedup.length ≤ P ∧
      (hybrid_search o s q k P r).length ≤ k ∧
      ∀ key, ((hybrid_search o s q k P r).filter
        (fun c => decide (parentKey c = key))).length ≤ 2) ∧
    (∀ (cands : List DocumentChunk) (k P : Nat),
      (∀ b1 ∈ keptBuckets P (cands.take (k * 2)),
        ∀ b2 ∈ (rankedBuckets (cands.take (k * 2))).drop P,
          bucketMax b2 ≤ bucketMax b1) ∧
      (∀ b ∈ keptBuckets P (cands.take (k * 2)),
        ∀ x ∈ top2 b.2, ∀ y ∈ b.2, ¬ y ∈ top2 b.2 →
          y.score ≤ x.score)) := by
  constructor
  · intro o s q k P r
    unfold hybrid_search
    cases ho : o.embed q with
    | none => simp
    | some emb => exact groupSelect_props k P _
  · intro cands k P
    constructor
    · have hpw := pySortDesc_pairwise bucketMax
        (parentBuckets (cands.take (k * 2)))
      intro b1 hb1 b2 hb2
      have hsplit := List.pairwise_append.mp (by
        rw [List.take_append_drop P
          (rankedBuckets (cands.take (k * 2)))]
        exact hpw)
      exact hsplit.2.2 b1 hb1 b2 hb2
    · intro b hb x hx y hy hyn
      unfold top2 at hx hyn
      have hpw := pySortDesc_pairwise (fun c => c.score) b.2
      have hyperm : y ∈ pySortDesc (fun c => c.score) b.2 :=
        (pySortDesc_perm (fun c => c.score) b.2).mem_iff.mpr hy
      have hydrop : y ∈ (pySortDesc (fun c => c.score) b.2).drop 2 := by
        have hysplit : y ∈ (pySortDesc (fun c => c.score) b.2).take 2 ∨
            y ∈ (pySortDesc (fun c => c.score) b.2).drop 2 := by
          rw [← List.take_append_drop 2
            (pySortDesc (fun c => c.score) b.2)] at hyperm
          exact List.mem_append.mp hyperm
        rcases hysplit with h | h
        · exact absurd h hyn
        · exact h
      have hsplit := List.pairwise_append.mp (by
        rw [List.take_append_drop 2 (pySortDesc (fun c => c.score) b.2)]
        exact hpw)
      exact hsplit.2.2 x hx y hydrop

/-- Three chunks sharing the fallback parent key, for the C7 witness. -/
def exGC : List DocumentChunk :=
  [{ id := "g1", content := "c1", score := 5 },
   { id := "g2", content := "c2", score := 7 },
   { id := "g3", content := "c3", score := 6 }]

/-- Two chunks with distinct parents, for the C7 witness. -/
def exGC2 : List DocumentChunk :=
  [{ id := "h1", content := "d1", metadata := exMeta "q1", score := 9 },
   { id := "h2", content := "d2", metadata := exMeta "q2", score := 4 }]

/-- C7 witness: the bucket-dominance part applied to a two-parent
candidate list with P = 1 (the dropped bucket maximum 4 is at most the
kept bucket maximum 9), and the within-bucket part applied to a
three-chunk single-parent list (the non-contributed chunk of score 5
scores at most the contributed chunk of score 7). -/
theorem C7_parent_cap_witness :
    bucketMax (MetaVal.mvStr "q2",
      [{ id := "h2", content := "d2", metadata := exMeta "q2",
         score := 4 }]) ≤
    bucketMax (MetaVal.mvStr "q1",
      [{ id := "h1", content := "d1", metadata := exMeta "q1",
         score := 9 }]) ∧
    ({ id := "g1", content := "c1", score := 5 } : DocumentChunk).score ≤
    ({ id := "g2", content := "c2", score := 7 } : DocumentChunk).score :=
  ⟨(C7_parent_cap.2 exGC2 1 1).1
      (MetaVal.mvStr "q1",
        [{ id := "h1", content := "d1", metadata := exMeta "q1",
           score := 9 }]) (by decide)
      (MetaVal.mvStr "q2",
        [{ id := "h2", content := "d2", metadata := exMeta "q2",
           score := 4 }]) (by decide),
   (C7_parent_cap.2 exGC 2 1).2
      (MetaVal.mvStr "unknown", exGC) (by decide)
      { id := "g2", content := "c2", score := 7 } (by decide)
      { id := "g1", content := "c1", score := 5 } (by decide) (by decide)⟩

/-- The fused candidate list of the C1/C3 example: four vector-only
chunks (fused scores 0.9, 0.8, 0.4, 0.3) followed by the keyword-only
chunk k5 (fused score 10). -/
def exCands : List DocumentChunk :=
  fuseChunks (vectorChunksOf exHits) (keywordChunks exOracle exState "q" 5)

lemma exKeywordChunks_eval : keywordChunks exOracle exState "q" 5 =
    [{ id := "k5", content := "ck5", metadata := exEntry.metadata,
       score := 10 }] := by
  norm_num +decide [keywordChunks, exOracle, exState, exEntry,
    pySortDesc, insertDesc, dictGetNat, List.find?, List.filterMap,
    List.filter, List.range, List.range.loop]

lemma exCands_eval : exCands =
    [{ id := "v1", content := "cv1", metadata := exMeta "p1", score := 9/10 },
     { id := "v2", content := "cv2", metadata := exMeta "p2", score := 4/5 },
     { id := "v3", content := "cv3", metadata := exMeta "p3", score := 2/5 },
     { id := "v4", content := "cv4", metadata := exMeta "p4", score := 3/10 },
     { id := "k5", content := "ck5", metadata := exEntry.metadata,
       score := 10 }] := by
  have hvec : vectorChunksOf exHits =
      [{ id := "v1", content := "cv1", metadata := exMeta "p1", score := 9/10 },
       { id := "v2", content := "cv2", metadata := exMeta "p2", score := 4/5 },
       { id := "v3", content := "cv3", metadata := exMeta "p3", score := 2/5 },
       { id := "v4", content := "cv4", metadata := exMeta "p4",
         score := 3/10 }] := by
    norm_num [vectorChunksOf, exHits]
  unfold exCands
  rw [hvec, exKeywordChunks_eval]
  norm_num +decide [fuseChunks, fuseInsert, updAvg, List.foldl, List.any]

lemma exRerank_eval : rerankStage (exOracle.crossScore "q") 2 exCands =
    [{ id := "k5", content := "ck5", metadata := exEntry.metadata,
       score := 10 },
     { id := "v1", content := "cv1", metadata := exMeta "p1", score := -1 },
     { id := "v2", content := "cv2", metadata := exMeta "p2", score := -2 },
     { id := "v3", content := "cv3", metadata := exMeta "p3", score := -3 },
     { id := "v4", content := "cv4", metadata := exMeta "p4",
       score := -4 }] := by
  rw [exCands_eval]
  norm_num +decide [rerankStage, pySortDesc, insertDesc, rescore,
    exOracle, List.take, List.drop, List.foldr]

lemma exSearch_eval : hybrid_search exOracle exState "q" 5 5 2 =
    [{ id := "k5", content := "ck5", metadata := exEntry.metadata,
       score := 10 },
     { id := "v1", content := "cv1", metadata := exMeta "p1", score := -1 },
     { id := "v2", content := "cv2", metadata := exMeta "p2", score := -2 },
     { id := "v3", content := "cv3", metadata := exMeta "p3", score := -3 },
     { id := "v4", content := "cv4", metadata := exMeta "p4",
       score := -4 }] := by
  have hm : hybrid_search exOracle exState "q" 5 5 2 =
      groupSelect 5 5 (rerankStage (exOracle.crossScore "q") 2 exCands) :=
    rfl
  rw [hm, exRerank_eval]
  norm_num +decide [groupSelect, keptBuckets, rankedBuckets,
    parentBuckets, firstDedup, parentKey, dictGet, dictGetD, exMeta,
    exEntry, MetaVal.truthy, bucketMax, listMaxQ, top2, pySortDesc,
    insertDesc, List.find?, List.filter, List.flatMap, List.take,
    List.foldr, List.foldl]

lemma exRescoredIds_eval : rescoredIds 2 exCands =
    ["v1", "v2", "v3", "v4"] := by
  rw [exCands_eval]
  norm_num [rescoredIds, List.take]

lemma exClaimRescoredIds_eval : claimRescoredIds 2 exCands =
    ["k5", "v1", "v2", "v3"] := by
  rw [exCands_eval]
  norm_num +decide [claimRescoredIds, sortByScoreDescIdAsc, insertRank,
    List.foldr, List.take]

/-- C1 counterexample: in the concrete search run both halves of the
claim fail.  (i) The final output puts the unrescored chunk k5 (fused
score 10) before every cross-encoder-rescored chunk, so rescored
chunks do NOT all precede unrescored ones; the final sort is purely by
numeric score.  (ii) The chunks chosen for rescoring are the first
2*k_rerank candidates in dict  insertion  order  ([v1,v2,v3,v4]),  not
the 2*k_rerank of highest fused score in descending order with id
tie-break ([k5,v1,v2,v3]). -/
theorem C1_counterexample :
    (¬ rerankDominance (rescoredIds 2 exCands)
        (hybrid_search exOracle exState "q" 5 5 2)) ∧
    rescoredIds 2 exCands ≠ claimRescoredIds 2 exCands := by
  constructor
  · intro hdom
    rw [exSearch_eval, exRescoredIds_eval] at hdom
    have h1 := (List.pairwise_cons.mp hdom).1
      { id := "v1", content := "cv1", metadata := exMeta "p1",
        score := -1 }
      (by simp)
    have h2 : ("k5" : String) ∈ ["v1", "v2", "v3", "v4"] :=
      h1 (by simp)
    simp at h2
  · rw [exRescoredIds_eval, exClaimRescoredIds_eval]
    simp

/-- C1 amended: when more than k_rerank candidates exist, the rescored
chunks are exactly the first 2*k_rerank candidates in fused
(dict-insertion) order — not the top-scored ones — and the final list
is the whole candidate set (rescored and unrescored alike) sorted by
numeric score descending, so an unrescored chunk outranks any rescored
chunk with a smaller score; with at most k_rerank candidates nothing
is rescored and no sorting happens at all. -/
theorem C1_rerank_amended (cross : String → ℚ) (rerank_top_k : Nat)
    (cands : List DocumentChunk) :
    (rerank_top_k < cands.length →
      (rerankStage cross rerank_top_k cands).Perm
        ((cands.take (rerank_top_k * 2)).map (rescore cross) ++
          cands.drop (rerank_top_k * 2)) ∧
      (rerankStage cross rerank_top_k cands).Pairwise
        (fun a b => b.score ≤ a.score)) ∧
    (cands.length ≤ rerank_top_k →
      rerankStage cross rerank_top_k cands = cands) ∧
    rescoredIds rerank_top_k cands =
      (if rerank_top_k < cands.length then
        (cands.take (rerank_top_k * 2)).map (fun c => c.id)
      else []) := by
  refine ⟨?_, ?_, rfl⟩
  · intro h
    unfold rerankStage
    rw [if_pos h]
    exact ⟨pySortDesc_perm _ _, pySortDesc_pairwise _ _⟩
  · intro h
    unfold rerankStage
    rw [if_neg (by omega)]

/-- C1 amended witness: the amended statement applied at k_rerank = 1
(rescoring happens) and k_rerank = 5 (no rescoring) on a two-chunk
candidate list. -/
theorem C1_rerank_amended_witness :
    ((rerankStage (fun c => 0) 1 exVC).Perm
      ((exVC.take 2).map (rescore (fun c => 0)) ++ exVC.drop 2) ∧
     (rerankStage (fun c => 0) 1 exVC).Pairwise
       (fun a b => b.score ≤ a.score)) ∧
    rerankStage (fun c => 0) 5 exVC = exVC :=
  ⟨(C1_rerank_amended (fun c => 0) 1 exVC).1 (by decide),
   (C1_rerank_amended (fun c => 0) 5 exVC).2.1 (by decide)⟩

end Ares
